import Mathlib

/-!
Verification of the generic REST client core of the repository: the response
classifier `doRequest`, the request wrapper `rawRequest`, the update-precondition
checks `UpdatePod` / `UpdateReplicationController` / `UpdateService`
(src/unnamed/part_000), the label serialization `Set.String`
(src/pkg/labels/labels.go), and the minion role filter `saltMinionsByRole`
with `VagrantCloud.List` (src/unnamed/part_001).

Go strings are modelled as Lean `String` where only equality is used, and as
`List Char` (`GoStr`) where the code orders, joins or splits them.  Go's
`([]byte, error)` return pairs become `Option β × Option (ClientError β)`.
-/

/-- Modelled from the spec: `api.Status` (pkg/api is not among the source
files).  The spec describes a DomainStatus as `{statusKind, message, details}`
where `statusKind` (the Go field `Status`) is one of Success/Failure/Working
or empty; only `statusKind` is consulted by the classifier, the rest is
carried verbatim inside a `StatusErr`. -/
structure Status where
  status : String
  message : String
  details : String
  deriving DecidableEq, Repr

/-- The constant `api.StatusSuccess`. -/
def StatusSuccess : String := "Success"

/-- The errors the client code can return, indexed by the body type `β`
(Go `[]byte`).  Each constructor corresponds to one `return ..., err` site:
`newRequestError` to `http.NewRequest` failing in `rawRequest`,
`netError` to `c.httpClient.Do` failing, `readError` to `ioutil.ReadAll`
failing, `statusError` to `&StatusErr{status}`, `requestFailed` to the
`fmt.Errorf("request [...] failed (%d) %s: %s", ...)` value (it carries the
status code, status text and raw body), `decodeError` to `api.DecodeInto`
failing on the caller-supplied target, and `validationError` to the
`fmt.Errorf("invalid update object, missing resource version: %v", ...)`
value in the update methods (the formatted message is elided). -/
inductive ClientError (β : Type) where
  | newRequestError (msg : String)
  | netError (msg : String)
  | readError (msg : String)
  | statusError (s : Status)
  | requestFailed (code : Nat) (statusText : String) (body : β)
  | decodeError (msg : String)
  | validationError
  deriving DecidableEq, Repr

/-- What `c.httpClient.Do(request)` followed by `ioutil.ReadAll(response.Body)`
can produce: either a network-level failure (`Do` returned an error, there is
no response at all), or a response with its status code, status text, the body
bytes read, and an optional `ReadAll` error (in which case `body` is what was
read before the failure, matching Go's `ReadAll` contract). -/
inductive TransportOutcome (β : Type) where
  | netFailure (msg : String)
  | response (statusCode : Nat) (statusText : String) (body : β) (readErr : Option String)
  deriving DecidableEq, Repr

/-- `RESTClient.doRequest`, parameterized by the decode probe
`decodeStatus : β → Option Status` which models `api.DecodeInto(body, &status)`
(`none` = decode error).  Mirrors the source line by line:

* `Do` error: `return nil, err`;
* `ReadAll` error: `return body, err`;
* `isStatusResponse` holds exactly when the body decodes and `status.Status`
  is non-empty — modelled by `statusResponse : Option Status`;
* the `switch` with `fallthrough`: at code 409 (`http.StatusConflict`) return
  `&StatusErr{status}` when a status response is present, otherwise fall
  through to the generic error body; at a code outside [200, 206]
  (`http.StatusOK` .. `http.StatusPartialContent`) return the generic error;
* after the switch: a status response whose kind is not `StatusSuccess`
  yields `&StatusErr{status}`; otherwise `return body, err` with `err = nil`. -/
def doRequest {β : Type} (decodeStatus : β → Option Status) :
    TransportOutcome β → Option β × Option (ClientError β)
  | .netFailure msg => (none, some (.netError msg))
  | .response code text body readErr =>
    match readErr with
    | some msg => (some body, some (.readError msg))
    | none =>
      let statusResponse : Option Status :=
        match decodeStatus body with
        | some s => if s.status = "" then none else some s
        | none => none
      if code = 409 then
        match statusResponse with
        | some s => (none, some (.statusError s))
        | none => (none, some (.requestFailed code text body))
      else if code < 200 ∨ 206 < code then
        (none, some (.requestFailed code text body))
      else
        match statusResponse with
        | some s =>
          if s.status ≠ StatusSuccess then (none, some (.statusError s))
          else (some body, none)
        | none => (some body, none)

/-- The result of `RESTClient.rawRequest`: the returned body, the returned
error, and the caller-supplied target when it was populated (Go mutates the
target in place; `target = some t` models a successful `DecodeInto`). -/
structure RawResult (β τ : Type) where
  body : Option β
  err : Option (ClientError β)
  target : Option τ
  deriving DecidableEq, Repr

/-- `RESTClient.rawRequest`, with `http.NewRequest` modelled by an optional
error `newRequestErr`, the network and read steps by `transport`, and the
optional decode target by `target : Option (β → Except String τ)` modelling
`target interface{}` together with `api.DecodeInto(body, target)`.
Mirrors the source: a `NewRequest` error returns immediately; a `doRequest`
error is returned together with whatever body `doRequest` returned; on
success with a non-nil target the body is decoded into the target, and a
decode failure is returned as the (only) error while the body is still
returned (`return body, err`). -/
def rawRequest {β τ : Type} (newRequestErr : Option String)
    (decodeStatus : β → Option Status) (transport : TransportOutcome β)
    (target : Option (β → Except String τ)) : RawResult β τ :=
  match newRequestErr with
  | some msg => ⟨none, some (.newRequestError msg), none⟩
  | none =>
    match doRequest decodeStatus transport with
    | (body, some e) => ⟨body, some e, none⟩
    | (some b, none) =>
      match target with
      | none => ⟨some b, none, none⟩
      | some dec =>
        match dec b with
        | .ok t => ⟨some b, none, some t⟩
        | .error msg => ⟨some b, some (.decodeError msg), none⟩
    | (none, none) => ⟨none, none, none⟩  -- unreachable: doRequest with nil error returns a body

/-- `api.Pod` as used by `UpdatePod`: only `ID` and `ResourceVersion`
(a `uint64`, modelled as `Nat`) are consulted. -/
structure Pod where
  id : String
  resourceVersion : Nat
  deriving DecidableEq, Repr

/-- `api.ReplicationController` as used by `UpdateReplicationController`. -/
structure ReplicationController where
  id : String
  resourceVersion : Nat
  deriving DecidableEq, Repr

/-- `api.Service` as used by `UpdateService`. -/
structure Service where
  id : String
  resourceVersion : Nat
  deriving DecidableEq, Repr

/-- `Client.UpdatePod`.  The fluent chain
`c.Put().Path("pods").Path(pod.ID).Body(pod).Do().Into(&result)` is the
transport executor, abstracted as `execute`; the second component of the
result counts how many times it was invoked.  A zero `ResourceVersion`
fails with the validation error before any call. -/
def UpdatePod {β : Type} (execute : Pod → Option Pod × Option (ClientError β))
    (pod : Pod) : (Option Pod × Option (ClientError β)) × Nat :=
  if pod.resourceVersion = 0 then ((none, some .validationError), 0)
  else (execute pod, 1)

/-- `Client.UpdateReplicationController`, same shape as `UpdatePod`. -/
def UpdateReplicationController {β : Type}
    (execute : ReplicationController → Option ReplicationController × Option (ClientError β))
    (controller : ReplicationController) :
    (Option ReplicationController × Option (ClientError β)) × Nat :=
  if controller.resourceVersion = 0 then ((none, some .validationError), 0)
  else (execute controller, 1)

/-- `Client.UpdateService`, same shape as `UpdatePod`. -/
def UpdateService {β : Type}
    (execute : Service → Option Service × Option (ClientError β))
    (svc : Service) : (Option Service × Option (ClientError β)) × Nat :=
  if svc.resourceVersion = 0 then ((none, some .validationError), 0)
  else (execute svc, 1)

/-- Go strings where the code joins, splits or orders them, modelled as
lists of characters (a Go string is a byte sequence). -/
abbrev GoStr := List Char

/-- `labels.Set` (`map[string]string`), modelled as an association list of
key/value pairs.  The Go map's unordered iteration is immaterial to
`Set.String` because it sorts the entries before joining. -/
abbrev LabelSet := List (GoStr × GoStr)

/-- Lexicographic byte-wise strict order on Go strings, as used by
`sort.Strings` / `sort.SearchStrings` (Go compares strings byte by byte). -/
def goStrLt : GoStr → GoStr → Bool
  | [], [] => false
  | [], _ :: _ => true
  | _ :: _, [] => false
  | a :: as, b :: bs => if a = b then goStrLt as bs else decide (a.toNat < b.toNat)

/-- Non-strict companion of `goStrLt` (`a ≤ b` iff `¬ b < a`). -/
def goStrLe (a b : GoStr) : Bool := !goStrLt b a

/-- Insert into a sorted list, keeping it sorted with respect to `le`. -/
def insertSorted {α : Type} (le : α → α → Bool) (x : α) : List α → List α
  | [] => [x]
  | y :: ys => if le x y then x :: y :: ys else y :: insertSorted le x ys

/-- Sorting by repeated insertion.  Models `sort.StringSlice(...).Sort()` and
`sort.Strings`: the Go standard sort and this one compute the same sorted
list for a total order, and the claims only need that the output is a
permutation of the input. -/
def sortBy {α : Type} (le : α → α → Bool) : List α → List α
  | [] => []
  | x :: xs => insertSorted le x (sortBy le xs)

/-- `strings.Join(elems, sep)` for a one-character separator. -/
def joinSep (sep : Char) : List GoStr → GoStr
  | [] => []
  | [s] => s
  | s :: rest => s ++ sep :: joinSep sep rest

/-- `labels.Set.String`: build the `key=value` entry for every pair, sort the
entries for determinism, and join them with commas. -/
def SetString (ls : LabelSet) : GoStr :=
  joinSep ',' (sortBy goStrLe (ls.map (fun p => p.1 ++ '=' :: p.2)))

/-- Splitting a string on a separator character: `n` separators yield `n+1`
(possibly empty) chunks, like Go's `strings.Split` with a one-character
separator.  This is the "splitting on commas and `=`" of the round-trip
property; it is the inverse direction the claim describes, not code of the
repository. -/
def goSplit (sep : Char) : GoStr → List GoStr
  | [] => [[]]
  | c :: cs =>
    if c = sep then [] :: goSplit sep cs
    else
      match goSplit sep cs with
      | [] => [[c]]
      | p :: ps => (c :: p) :: ps

/-- One comma-separated chunk split on `=`; a chunk that is not exactly
`key=value` yields no pair. -/
def parseEntry (s : GoStr) : Option (GoStr × GoStr) :=
  match goSplit '=' s with
  | [k, v] => some (k, v)
  | _ => none

/-- The claim's reconstruction: split the serialized string on commas, then
split every chunk on `=`. -/
def parseLabels (s : GoStr) : LabelSet :=
  (goSplit ',' s).filterMap parseEntry

/-- `SaltMinion`: a machine managed by the Salt service (`Roles`, `IP`,
`Host`, from the JSON tags `roles`, `minion_ip`, `host`). -/
structure SaltMinion where
  Roles : List GoStr
  IP : GoStr
  Host : GoStr
  deriving DecidableEq, Repr

/-- `sort.SearchStrings(a, x)`: the smallest index at which `x` could be
inserted into the sorted slice `a` keeping it sorted.  On a sorted slice the
binary search returns exactly the length of the prefix of elements smaller
than `x`, which is how it is modelled here (the caller always sorts first). -/
def searchStrings (a : List GoStr) (x : GoStr) : Nat :=
  (a.takeWhile (fun s => goStrLt s x)).length

/-- `VagrantCloud.saltMinionsByRole`: for each minion, sort its `Roles` and
keep the minion when `sort.SearchStrings(roles, role)` returns a position
strictly inside the slice.  (The source checks only the position, not that
the element at that position equals `role`.) -/
def saltMinionsByRole (minions : List SaltMinion) (role : GoStr) : List SaltMinion :=
  minions.filter (fun m =>
    let roles := sortBy goStrLe m.Roles
    searchStrings roles role < roles.length)

/-- The pure tail of `VagrantCloud.List`: after `saltLogin` and `saltMinions`
have produced the minion list over the network, `List` filters by the role
`"kubernetes-pool"` and collects the `IP` of every surviving minion. -/
def vagrantList (minions : List SaltMinion) : List GoStr :=
  (saltMinionsByRole minions "kubernetes-pool".toList).map (fun m => m.IP)

/-! Helper lemmas about splitting, joining and sorting, used for the
label round-trip. -/

/-- Splitting never produces an empty list of chunks. -/
theorem goSplit_ne_nil (sep : Char) : ∀ s : GoStr, goSplit sep s ≠ []
  | [], h => by simp [goSplit] at h
  | c :: cs, h => by
    by_cases hc : c = sep
    · simp [goSplit, hc] at h
    · have := goSplit_ne_nil sep cs
      cases hcs : goSplit sep cs with
      | nil => exact this hcs
      | cons p ps => simp [goSplit, hc, hcs] at h

/-- A string free of the separator is a single chunk. -/
theorem goSplit_not_mem (sep : Char) : ∀ s : GoStr, sep ∉ s → goSplit sep s = [s]
  | [], _ => rfl
  | c :: cs, h => by
    have hc : ¬ c = sep := fun hcs => h (hcs ▸ List.mem_cons_self c cs)
    have ih := goSplit_not_mem sep cs (fun hm => h (List.mem_cons_of_mem c hm))
    simp [goSplit, hc, ih]

/-- Prepending a separator-free prefix extends the first chunk. -/
theorem goSplit_append (sep : Char) :
    ∀ (x r : GoStr), sep ∉ x → ∀ p ps, goSplit sep r = p :: ps →
      goSplit sep (x ++ r) = (x ++ p) :: ps
  | [], _, _, _, _, h => by simpa using h
  | c :: cs, r, hx, p, ps, h => by
    have hc : ¬ c = sep := fun hcs => hx (hcs ▸ List.mem_cons_self c cs)
    have ih := goSplit_append sep cs r (fun hm => hx (List.mem_cons_of_mem c hm)) p ps h
    simp [goSplit, hc, ih]

/-- Splitting undoes joining when every chunk is separator-free. -/
theorem goSplit_joinSep (sep : Char) :
    ∀ l : List GoStr, l ≠ [] → (∀ e ∈ l, sep ∉ e) →
      goSplit sep (joinSep sep l) = l
  | [], h, _ => absurd rfl h
  | [x], _, hmem => by
    simp [joinSep, goSplit_not_mem sep x (hmem x (by simp))]
  | x :: y :: t, _, hmem => by
    have ih := goSplit_joinSep sep (y :: t) (by simp)
      (fun e he => hmem e (List.mem_cons_of_mem x he))
    have hsep : goSplit sep (sep :: joinSep sep (y :: t)) =
        [] :: goSplit sep (joinSep sep (y :: t)) := by simp [goSplit]
    have hx : sep ∉ x := hmem x (List.mem_cons_self x (y :: t))
    have happ := goSplit_append sep x (sep :: joinSep sep (y :: t)) hx
      [] (y :: t) (by rw [hsep, ih])
    simpa [joinSep] using happ

/-- Splitting `key=value` on `=` recovers the pair when neither side
contains `=`. -/
theorem parseEntry_encode (k v : GoStr) (hk : ('=' : Char) ∉ k) (hv : ('=' : Char) ∉ v) :
    parseEntry (k ++ '=' :: v) = some (k, v) := by
  have h1 : goSplit '=' ('=' :: v) = [] :: [v] := by
    simp [goSplit, goSplit_not_mem '=' v hv]
  have h2 := goSplit_append '=' k ('=' :: v) hk [] [v] h1
  simp [parseEntry, h2]

/-- Insertion keeps the multiset of elements. -/
theorem insertSorted_perm {α : Type} (le : α → α → Bool) (x : α) :
    ∀ l : List α, (insertSorted le x l).Perm (x :: l)
  | [] => List.Perm.refl _
  | y :: ys => by
    cases hxy : le x y with
    | true => simp [insertSorted, hxy]
    | false =>
      have ih := insertSorted_perm le x ys
      simp only [insertSorted, hxy, Bool.false_eq_true, if_false]
      exact (ih.cons y).trans (List.Perm.swap x y ys)

/-- Sorting keeps the multiset of elements. -/
theorem sortBy_perm {α : Type} (le : α → α → Bool) :
    ∀ l : List α, (sortBy le l).Perm l
  | [] => List.Perm.refl _
  | x :: xs =>
    (insertSorted_perm le x (sortBy le xs)).trans ((sortBy_perm le xs).cons x)

/-- Parsing the encoded entries of a clean label set gives the set back. -/
theorem filterMap_parseEntry_encode :
    ∀ ls : LabelSet,
      (∀ p ∈ ls, ∀ c : Char, (c ∈ p.1 ∨ c ∈ p.2) → c ≠ ',' ∧ c ≠ '=') →
      ls.filterMap (fun p => parseEntry (p.1 ++ '=' :: p.2)) = ls
  | [], _ => rfl
  | p :: rest, hchars => by
    have hk : ('=' : Char) ∉ p.1 := fun hc =>
      (hchars p (List.mem_cons_self p rest) '=' (Or.inl hc)).2 rfl
    have hv : ('=' : Char) ∉ p.2 := fun hc =>
      (hchars p (List.mem_cons_self p rest) '=' (Or.inr hc)).2 rfl
    have ih := filterMap_parseEntry_encode rest
      (fun q hq => hchars q (List.mem_cons_of_mem p hq))
    simp [List.filterMap_cons, parseEntry_encode p.1 p.2 hk hv, ih]

/-- C1: a response whose body decodes cleanly as a DomainStatus with non-empty
kind different from Success, arriving with a transport status code in
[200, 206], is classified by `doRequest` as a `StatusErr` carrying that
status, never as a success. -/
theorem doRequest_status_overrides_2xx {β : Type} (decodeStatus : β → Option Status)
    (code : Nat) (text : String) (body : β) (s : Status)
    (hdec : decodeStatus body = some s) (hkind : s.status ≠ "")
    (hns : s.status ≠ StatusSuccess) (hlo : 200 ≤ code) (hhi : code ≤ 206) :
    doRequest decodeStatus (.response code text body none)
      = (none, some (.statusError s)) := by
  have h409 : ¬ code = 409 := by omega
  have hrange : ¬ (code < 200 ∨ 206 < code) := by omega
  simp [doRequest, hdec, hkind, h409, hrange, hns]

/-- Witness for C1: a Working status under a 200 response is a `StatusErr`. -/
theorem doRequest_status_overrides_2xx_witness :
    doRequest (fun _ : Unit => some ⟨"Working", "w", ""⟩) (.response 200 "OK" () none)
      = (none, some (.statusError ⟨"Working", "w", ""⟩)) :=
  doRequest_status_overrides_2xx (fun _ : Unit => some ⟨"Working", "w", ""⟩)
    200 "OK" () ⟨"Working", "w", ""⟩ rfl (by decide) (by decide) (by decide) (by decide)

/-- C2: at transport status code 409, a decodable DomainStatus with non-empty
kind turns into a `StatusErr` carrying that status; with no such status the
result is the generic transport-range failure. -/
theorem doRequest_conflict_classification {β : Type} (decodeStatus : β → Option Status)
    (text : String) (body : β) :
    (∀ s : Status, decodeStatus body = some s → s.status ≠ "" →
        doRequest decodeStatus (.response 409 text body none)
          = (none, some (.statusError s)))
    ∧ ((∀ s : Status, decodeStatus body = some s → s.status = "") →
        doRequest decodeStatus (.response 409 text body none)
          = (none, some (.requestFailed 409 text body))) := by
  constructor
  · intro s hdec hkind
    simp [doRequest, hdec, hkind]
  · intro hno
    cases hd : decodeStatus body with
    | none => simp [doRequest, hd]
    | some s => simp [doRequest, hd, hno s hd]

/-- Witness for C2: a 409 with a Failure status is a `StatusErr`; a 409 with
an undecodable body is the generic failure. -/
theorem doRequest_conflict_classification_witness :
    doRequest (fun _ : Unit => some ⟨"Failure", "f", ""⟩) (.response 409 "Conflict" () none)
      = (none, some (.statusError ⟨"Failure", "f", ""⟩))
    ∧ doRequest (fun _ : Unit => none) (.response 409 "Conflict" () none)
      = (none, some (.requestFailed 409 "Conflict" ())) :=
  ⟨(doRequest_conflict_classification (fun _ : Unit => some ⟨"Failure", "f", ""⟩)
      "Conflict" ()).1 ⟨"Failure", "f", ""⟩ rfl (by decide),
   (doRequest_conflict_classification (fun _ : Unit => none) "Conflict" ()).2
      (fun s h => Option.noConfusion h)⟩

/-- C9: when the HTTP send itself fails, `doRequest` returns that error with a
nil body; the result does not depend on the status-decoding probe at all, so
no body-reading or classification logic can influence it. -/
theorem doRequest_net_failure {β : Type} (decodeStatus : β → Option Status)
    (msg : String) :
    doRequest decodeStatus (.netFailure msg) = (none, some (.netError msg)) := rfl

/-- C6: with no cleanly decoded DomainStatus (decode failure or empty kind),
the outcome of `doRequest` is decided by the transport status code alone:
success exactly on [200, 206], the generic failure otherwise. -/
theorem doRequest_no_status_uses_code_only {β : Type} (decodeStatus : β → Option Status)
    (code : Nat) (text : String) (body : β)
    (hstat : decodeStatus body = none ∨
      ∃ s, decodeStatus body = some s ∧ s.status = "") :
    doRequest decodeStatus (.response code text body none) =
      if 200 ≤ code ∧ code ≤ 206 then (some body, none)
      else (none, some (.requestFailed code text body)) := by
  have hsr : (match decodeStatus body with
      | some s => if s.status = "" then none else some s
      | none => none) = (none : Option Status) := by
    rcases hstat with h | ⟨s, hs, hk⟩
    · simp [h]
    · simp [hs, hk]
  by_cases h409 : code = 409
  · subst h409
    have : ¬ (200 ≤ 409 ∧ 409 ≤ 206) := by omega
    simp [doRequest, hsr, this]
  · by_cases hrange : code < 200 ∨ 206 < code
    · have hn : ¬ (200 ≤ code ∧ code ≤ 206) := by omega
      simp [doRequest, hsr, h409, hrange, hn]
    · have hy : 200 ≤ code ∧ code ≤ 206 := by omega
      simp [doRequest, hsr, h409, hrange, hy]

/-- Witness for C6: an undecodable body is classified by the code alone, at a
203 success and at a 503 failure. -/
theorem doRequest_no_status_uses_code_only_witness :
    doRequest (fun _ : Unit => none) (.response 203 "Non-Authoritative" () none)
      = (some (), none)
    ∧ doRequest (fun _ : Unit => none) (.response 503 "Service Unavailable" () none)
      = (none, some (.requestFailed 503 "Service Unavailable" ())) := by
  constructor
  · have := doRequest_no_status_uses_code_only (fun _ : Unit => none)
      203 "Non-Authoritative" () (Or.inl rfl)
    simpa using this
  · have := doRequest_no_status_uses_code_only (fun _ : Unit => none)
      503 "Service Unavailable" () (Or.inl rfl)
    simpa using this

/-- C7: a transport status code outside [200, 206] that is not a 409 carrying
a decodable DomainStatus yields the generic transport-range failure, which
carries the code, the status text and the raw body, with no decoded value. -/
theorem doRequest_out_of_range_generic_failure {β : Type} (decodeStatus : β → Option Status)
    (code : Nat) (text : String) (body : β)
    (hrange : ¬ (200 ≤ code ∧ code ≤ 206))
    (h409 : code = 409 → ∀ s, decodeStatus body = some s → s.status = "") :
    doRequest decodeStatus (.response code text body none)
      = (none, some (.requestFailed code text body)) := by
  by_cases hc : code = 409
  · subst hc
    cases hd : decodeStatus body with
    | none => simp [doRequest, hd]
    | some s => simp [doRequest, hd, h409 rfl s hd]
  · have hlt : code < 200 ∨ 206 < code := by omega
    cases hd : decodeStatus body with
    | none => simp [doRequest, hd, hc, hlt]
    | some s =>
      by_cases hk : s.status = "" <;> simp [doRequest, hd, hc, hlt, hk]

/-- Witness for C7: a 503 with a body decoding as a Failure status is still
the generic transport-range failure. -/
theorem doRequest_out_of_range_generic_failure_witness :
    doRequest (fun _ : Unit => some ⟨"Failure", "f", ""⟩)
      (.response 503 "Service Unavailable" () none)
      = (none, some (.requestFailed 503 "Service Unavailable" ())) :=
  doRequest_out_of_range_generic_failure (fun _ : Unit => some ⟨"Failure", "f", ""⟩)
    503 "Service Unavailable" () (by omega)
    (fun h => absurd h (by decide))

/-- C3: a response with code in [200, 206] whose body yields no DomainStatus,
an empty kind, or kind Success, is a success of `doRequest` returning the
body, and `rawRequest` populates a supplied decode target from that body. -/
theorem doRequest_success_populates_target {β τ : Type}
    (decodeStatus : β → Option Status) (code : Nat) (text : String) (body : β)
    (dec : β → Except String τ) (t : τ)
    (hcode : 200 ≤ code ∧ code ≤ 206)
    (hstat : decodeStatus body = none ∨
      ∃ s, decodeStatus body = some s ∧ (s.status = "" ∨ s.status = StatusSuccess))
    (hdec : dec body = .ok t) :
    doRequest decodeStatus (.response code text body none) = (some body, none)
    ∧ rawRequest none decodeStatus (.response code text body none) (some dec)
        = ⟨some body, none, some t⟩ := by
  have h409 : ¬ code = 409 := by omega
  have hr : ¬ (code < 200 ∨ 206 < code) := by omega
  have hdo : doRequest decodeStatus (.response code text body none) = (some body, none) := by
    rcases hstat with h | ⟨s, hs, hk | hk⟩
    · simp [doRequest, h, h409, hr]
    · simp [doRequest, hs, hk, h409, hr]
    · simp [doRequest, hs, hk, h409, hr, StatusSuccess]
  exact ⟨hdo, by simp [rawRequest, hdo, hdec]⟩

/-- Witness for C3: a 200 whose body decodes with kind Success is a success
and the target is populated. -/
theorem doRequest_success_populates_target_witness :
    doRequest (fun _ : Unit => some ⟨"Success", "", ""⟩) (.response 200 "OK" () none)
      = (some (), none)
    ∧ rawRequest none (fun _ : Unit => some ⟨"Success", "", ""⟩)
        (.response 200 "OK" () none) (some (fun _ : Unit => Except.ok (37 : Nat)))
      = ⟨some (), none, some 37⟩ :=
  doRequest_success_populates_target (fun _ : Unit => some ⟨"Success", "", ""⟩)
    200 "OK" () (fun _ : Unit => Except.ok (37 : Nat)) 37 (by omega)
    (Or.inr ⟨⟨"Success", "", ""⟩, rfl, Or.inr rfl⟩) rfl

/-- C5: when `doRequest` has classified the call as a success but decoding the
body into the supplied target fails, `rawRequest` still returns the body and
reports the failure only as the distinct decode error, not as a transport or
domain failure. -/
theorem rawRequest_decode_failure_keeps_success {β τ : Type}
    (decodeStatus : β → Option Status) (transport : TransportOutcome β)
    (dec : β → Except String τ) (b : β) (msg : String)
    (hsucc : doRequest decodeStatus transport = (some b, none))
    (hdec : dec b = .error msg) :
    rawRequest none decodeStatus transport (some dec)
      = ⟨some b, some (.decodeError msg), none⟩ := by
  simp [rawRequest, hsucc, hdec]

/-- Witness for C5: a plain 200 success whose target decode fails returns the
body together with the decode error. -/
theorem rawRequest_decode_failure_keeps_success_witness :
    rawRequest none (fun _ : Unit => none) (.response 200 "OK" () none)
      (some (fun _ : Unit => (Except.error "bad payload" : Except String Nat)))
      = ⟨some (), some (.decodeError "bad payload"), none⟩ :=
  rawRequest_decode_failure_keeps_success (fun _ : Unit => none)
    (.response 200 "OK" () none) (fun _ : Unit => Except.error "bad payload")
    () "bad payload" rfl rfl

/-- C4: every update operation on a resource whose resource version is 0
returns the validation error and performs zero transport-executor calls. -/
theorem update_zero_version_no_network {β : Type}
    (executePod : Pod → Option Pod × Option (ClientError β))
    (executeRC : ReplicationController → Option ReplicationController × Option (ClientError β))
    (executeSvc : Service → Option Service × Option (ClientError β))
    (pod : Pod) (rc : ReplicationController) (svc : Service)
    (hp : pod.resourceVersion = 0) (hr : rc.resourceVersion = 0)
    (hs : svc.resourceVersion = 0) :
    UpdatePod executePod pod = ((none, some .validationError), 0)
    ∧ UpdateReplicationController executeRC rc = ((none, some .validationError), 0)
    ∧ UpdateService executeSvc svc = ((none, some .validationError), 0) := by
  simp [UpdatePod, UpdateReplicationController, UpdateService, hp, hr, hs]

/-- Witness for C4: concrete version-0 resources fail validation with zero
executor invocations. -/
theorem update_zero_version_no_network_witness :
    UpdatePod (β := Unit) (fun _ => (none, none)) ⟨"p", 0⟩
      = ((none, some .validationError), 0)
    ∧ UpdateReplicationController (β := Unit) (fun _ => (none, none)) ⟨"rc", 0⟩
      = ((none, some .validationError), 0)
    ∧ UpdateService (β := Unit) (fun _ => (none, none)) ⟨"svc", 0⟩
      = ((none, some .validationError), 0) :=
  update_zero_version_no_network (β := Unit) (fun _ => (none, none))
    (fun _ => (none, none)) (fun _ => (none, none))
    ⟨"p", 0⟩ ⟨"rc", 0⟩ ⟨"svc", 0⟩ rfl rfl rfl

/-- C8: serializing a label mapping with non-empty keys and comma/equals-free
keys and values via `Set.String` (sorted `key=value` entries joined with
commas) and splitting the result back on commas and `=` reconstructs exactly
the original key-to-value mapping (as a permutation of its entries). -/
theorem setString_roundtrip (ls : LabelSet)
    (hnodup : (ls.map Prod.fst).Nodup)
    (hkeys : ∀ p ∈ ls, p.1 ≠ ([] : GoStr))
    (hclean : ∀ p ∈ ls, (',' : Char) ∉ p.1 ++ p.2 ∧ ('=' : Char) ∉ p.1 ++ p.2) :
    (parseLabels (SetString ls)).Perm ls := by
  have hchars : ∀ p ∈ ls, ∀ c : Char, (c ∈ p.1 ∨ c ∈ p.2) → c ≠ ',' ∧ c ≠ '=' := by
    intro p hp c hc
    have hmem : c ∈ p.1 ++ p.2 := by
      rcases hc with h | h
      · exact List.mem_append_left _ h
      · exact List.mem_append_right _ h
    exact ⟨fun hcc => (hclean p hp).1 (hcc ▸ hmem),
           fun hcc => (hclean p hp).2 (hcc ▸ hmem)⟩
  rcases ls with _ | ⟨p0, rest⟩
  · exact List.Perm.nil
  · have hperm : (sortBy goStrLe ((p0 :: rest).map (fun p => p.1 ++ '=' :: p.2))).Perm
        ((p0 :: rest).map (fun p => p.1 ++ '=' :: p.2)) := sortBy_perm _ _
    have hsne : sortBy goStrLe ((p0 :: rest).map (fun p => p.1 ++ '=' :: p.2)) ≠ [] := by
      intro h
      have hlen := hperm.length_eq
      rw [h] at hlen
      simp at hlen
    have hnomem : ∀ e ∈ sortBy goStrLe ((p0 :: rest).map (fun p => p.1 ++ '=' :: p.2)),
        (',' : Char) ∉ e := by
      intro e he hc
      have he2 : e ∈ (p0 :: rest).map (fun p => p.1 ++ '=' :: p.2) := hperm.mem_iff.mp he
      obtain ⟨p, hp, rfl⟩ := List.mem_map.mp he2
      rcases List.mem_append.mp hc with h1 | h2
      · exact (hchars p hp ',' (Or.inl h1)).1 rfl
      · rcases List.mem_cons.mp h2 with h3 | h4
        · exact absurd h3 (by decide)
        · exact (hchars p hp ',' (Or.inr h4)).1 rfl
    have hsplit := goSplit_joinSep ','
      (sortBy goStrLe ((p0 :: rest).map (fun p => p.1 ++ '=' :: p.2))) hsne hnomem
    have heq : parseLabels (SetString (p0 :: rest))
        = (sortBy goStrLe ((p0 :: rest).map (fun p => p.1 ++ '=' :: p.2))).filterMap
            parseEntry := by
      unfold parseLabels SetString
      rw [hsplit]
    rw [heq]
    refine (List.Perm.filterMap parseEntry hperm).trans ?_
    rw [List.filterMap_map]
    have hid : List.filterMap (parseEntry ∘ fun (p : GoStr × GoStr) => p.1 ++ '=' :: p.2)
        (p0 :: rest) = p0 :: rest := by
      rw [show (parseEntry ∘ fun (p : GoStr × GoStr) => p.1 ++ '=' :: p.2)
          = (fun p : GoStr × GoStr => parseEntry (p.1 ++ '=' :: p.2)) from rfl]
      exact filterMap_parseEntry_encode (p0 :: rest) hchars
    rw [hid]

/-- Witness for C8: a concrete two-label set round-trips. -/
theorem setString_roundtrip_witness :
    (parseLabels (SetString [(['b'], ['2']), (['a'], ['1'])])).Perm
      [(['b'], ['2']), (['a'], ['1'])] :=
  setString_roundtrip [(['b'], ['2']), (['a'], ['1'])]
    (by decide) (by decide) (by decide)

/-- C10: the filter keeps any minion whose sorted role list merely has an
element at or after the binary-search position of the requested role, so a
minion whose only role is `"z"` — which does not contain the role
`"kubernetes-pool"` at all — is kept, and `VagrantCloud.List` reports its IP.
This contradicts the function's stated purpose of keeping minions *that have*
a matching role. -/
theorem saltMinionsByRole_admits_minion_without_role :
    saltMinionsByRole [⟨[('z' :: [])], "10.245.1.3".toList, "minion-1".toList⟩]
        "kubernetes-pool".toList
      = [⟨[('z' :: [])], "10.245.1.3".toList, "minion-1".toList⟩]
    ∧ "kubernetes-pool".toList ∉ ([('z' :: [])] : List GoStr)
    ∧ vagrantList [⟨[('z' :: [])], "10.245.1.3".toList, "minion-1".toList⟩]
      = ["10.245.1.3".toList] := by decide
